import Mathlib

/-!
Verification of the nested-filter evaluation core
(`src/lib/segment/src/index/query_optimization/nested_filter.rs`) and of the
vector-operation write classifier
(`src/lib/collection/src/operations/vector_ops.rs`).

A `BitVec` from the `bitvec` crate is modelled as `List Bool`; `&`, `|`, `!`
and `count_ones` become `zipWith and`, `zipWith or`, `map not` and
`count true`.  `Iterator::reduce` becomes `listReduce` (first element as the
accumulator, left fold over the rest).  A Rust panic (the `unreachable!()`
arm of the condition converter) is modelled by `Option`: `none` means the
computation panics.
-/

namespace Segment

/-- Rust `PointOffsetType` (a `u32` point offset); modelled as `Nat` since no
arithmetic on it occurs in this module. -/
abbrev PointOffsetType := Nat

/-- Model of `bitvec::BitVec`: one boolean per element of the located array. -/
abbrev BV := List Bool

/-- `BitVec::default()` — the empty bit vector. -/
def bvDefault : BV := []

/-- Bitwise AND `acc & x` of two bit vectors (positionwise on the common prefix;
all combined vectors at one level have equal length by invariant). -/
def bvAnd (a b : BV) : BV := List.zipWith and a b

/-- Bitwise OR `acc | x` of two bit vectors. -/
def bvOr (a b : BV) : BV := List.zipWith or a b

/-- Bitwise complement `!mask` of a bit vector. -/
def bvNot (a : BV) : BV := a.map not

/-- `BitVec::count_ones` — the number of set bits. -/
def countOnes (a : BV) : Nat := a.count true

/-- Rust `Iterator::reduce`: `none` on an empty sequence, otherwise the left
fold of the tail with the head as the initial accumulator. -/
def listReduce {α : Type} (f : α → α → α) : List α → Option α
  | [] => none
  | x :: xs => some (xs.foldl f x)

/-- Model of `NestedMatchingIndicesFn`: given a point id, the per-element bit
vector of nested indices matching the condition. -/
abbrev NestedMatchingIndicesFn := PointOffsetType → BV

/-- `find_indices_matching_all_conditions`: map the checkers over the point id
and reduce with bitwise AND; `unwrap_or_default` yields the empty vector for
an empty checker list. -/
def find_indices_matching_all_conditions (point_id : PointOffsetType)
    (nested_checkers : List NestedMatchingIndicesFn) : BV :=
  (listReduce bvAnd (nested_checkers.map fun checker => checker point_id)).getD bvDefault

/-- `find_indices_matching_any_conditions`: map the checkers over the point id
and reduce with bitwise OR; `none` when the checker list is empty. -/
def find_indices_matching_any_conditions (point_id : PointOffsetType)
    (nested_checkers : List NestedMatchingIndicesFn) : Option BV :=
  listReduce bvOr (nested_checkers.map fun checker => checker point_id)

/-- `find_indices_matching_none_conditions`: the complement of the match-any
reduction; `unwrap_or_default` yields the empty vector when match-any found no
vectors (the debug assertion case). -/
def find_indices_matching_none_conditions (point_id : PointOffsetType)
    (nested_checkers : List NestedMatchingIndicesFn) : BV :=
  ((find_indices_matching_any_conditions point_id nested_checkers).map bvNot).getD bvDefault

/-- `merge_nested_matching_indices`: collapse nested checkers into a single
per-point boolean verdict, with optional negation. -/
def merge_nested_matching_indices (nested_checkers : List NestedMatchingIndicesFn)
    (nested_negate : Bool) : PointOffsetType → Bool :=
  fun point_id =>
    if nested_negate then
      countOnes (find_indices_matching_none_conditions point_id nested_checkers) == 0
    else
      decide (0 < countOnes (find_indices_matching_all_conditions point_id nested_checkers))

/-- `match-all` reduction over already-computed bit vectors (the body of
`find_indices_matching_all_conditions` after applying the point id, reused by
the nested evaluator's final AND-reduce with `unwrap_or_default`). -/
def matchAllReduce (bvs : List BV) : BV := (listReduce bvAnd bvs).getD bvDefault

/-- `match-any` reduction over already-computed bit vectors. -/
def matchAnyReduce (bvs : List BV) : Option BV := listReduce bvOr bvs

/-- `match-none` reduction over already-computed bit vectors: complement of
match-any, empty vector when match-any found no vectors. -/
def matchNoneReduce (bvs : List BV) : BV := ((matchAnyReduce bvs).map bvNot).getD bvDefault

/-- Modelled from the spec: the payload document attached to a point
(`segment` payload storage is outside the provided sources); treated as an
opaque value. -/
abbrev Payload := Nat

/-- Modelled from the spec: a leaf field condition (`types.rs` is outside the
provided sources); its contents flow only into the external leaf evaluator. -/
abbrev FieldCondition := Nat

/-- Modelled from the spec: an is-empty leaf condition, treated as opaque. -/
abbrev IsEmptyCondition := Nat

/-- Modelled from the spec: an is-null leaf condition, treated as opaque. -/
abbrev IsNullCondition := Nat

/-- Modelled from the spec: the id set carried by a `HasId` condition; its
contents are never consulted under nested evaluation. -/
abbrev IdSet := List Nat

/-- Modelled from the spec: `IndexesMap`, the field-index lookup table; only
threaded through to the external leaf evaluator, never inspected here. -/
abbrev IndexesMap := Nat

/-- Modelled from the spec: `JsonPathPayload`, an accumulating path locating a
sub-document or array within the payload; extended, never rewritten. -/
structure JsonPathPayload where
  path : List String

/-- Modelled from the spec: `JsonPathPayload::extend` appends one key to the
accumulated path. -/
def JsonPathPayload.extend (p : JsonPathPayload) (key : String) : JsonPathPayload :=
  ⟨p.path ++ [key]⟩

/-- Modelled from the spec: the `PayloadProvider`, a shared handle that can
retrieve one point's payload document. -/
abbrev PayloadProvider := PointOffsetType → Payload

/-- Modelled from the spec: `PayloadProvider::with_payload` grants scoped
read-only access to the point's payload for the duration of the closure. -/
def with_payload {R : Type} (payload_provider : PayloadProvider)
    (point_id : PointOffsetType) (f : Payload → R) : R :=
  f (payload_provider point_id)

/-- Modelled from the spec: the external leaf evaluators of
`payload_storage::nested_query_checker` (outside the provided sources),
abstracted as unconstrained functions producing one bit per array element. -/
structure LeafCheckers where
  nested_check_field_condition :
    FieldCondition → Payload → JsonPathPayload → IndexesMap → BV
  check_nested_is_empty_condition : JsonPathPayload → IsEmptyCondition → Payload → BV
  check_nested_is_null_condition : JsonPathPayload → IsNullCondition → Payload → BV

mutual

/-- The `Condition` tree (variants of `types::Condition` reachable from the
nested converter). `Filter` is the raw-filter marker whose converter arm is
`unreachable!()`; its payload is irrelevant to this module and omitted. -/
inductive Condition where
  | Field : FieldCondition → Condition
  | IsEmpty : IsEmptyCondition → Condition
  | IsNull : IsNullCondition → Condition
  | HasId : IdSet → Condition
  | Nested : NestedContainer → Condition
  | Filter : Condition

/-- Modelled from the spec: a `NestedContainer` holds the key of the array it
quantifies over (`array_key()`) and a sub-filter with optional must, must_not
and should condition lists (in that field order). -/
inductive NestedContainer where
  | mk : String → OptConditions → OptConditions → OptConditions → NestedContainer

/-- An optional condition list (`Option<Vec<Condition>>` of a filter clause). -/
inductive OptConditions where
  | none : OptConditions
  | some : ConditionList → OptConditions

/-- A `Vec<Condition>` of sibling conditions. -/
inductive ConditionList where
  | nil : ConditionList
  | cons : Condition → ConditionList → ConditionList

end

/-- Apply a point id to a list of compiled (panic-aware) checkers, collecting
the bit vectors in order; `none` if any checker panics. -/
def apply_checkers (checkers : List (PointOffsetType → Option BV))
    (point_id : PointOffsetType) : Option (List BV) :=
  match checkers with
  | [] => some []
  | checker :: rest =>
    match checker point_id, apply_checkers rest point_id with
    | some v, some vs => some (v :: vs)
    | _, _ => none

mutual

/-- `nested_condition_converter`: compile one condition into a per-point bit
vector function.  The result is `none` exactly when the Rust code panics at
conversion time (the `unreachable!()` arm for `Condition::Filter`); the
compiled function itself returns `none` when a panic happens during its later
evaluation (a `Filter` buried inside a `Nested` sub-filter, reached only when
the closure runs). -/
def nested_condition_converter (env : LeafCheckers) (payload_provider : PayloadProvider)
    (condition : Condition) (field_indexes : IndexesMap) (nested_path : JsonPathPayload) :
    Option (PointOffsetType → Option BV) :=
  match condition with
  | .Field field_condition =>
    Option.some fun point_id =>
      some (with_payload payload_provider point_id fun payload =>
        env.nested_check_field_condition field_condition payload nested_path field_indexes)
  | .IsEmpty is_empty =>
    Option.some fun point_id =>
      some (with_payload payload_provider point_id fun payload =>
        env.check_nested_is_empty_condition nested_path is_empty payload)
  | .IsNull is_null =>
    Option.some fun point_id =>
      some (with_payload payload_provider point_id fun payload =>
        env.check_nested_is_null_condition nested_path is_null payload)
  | .HasId _ =>
    Option.some fun _ => some bvDefault
  | .Nested nested =>
    Option.some fun point_id =>
      eval_nested_condition env payload_provider nested field_indexes nested_path point_id
  | .Filter => none
termination_by (sizeOf condition, 0)

/-- `nested_conditions_converter`: compile each condition of a sibling list;
`none` if compiling any of them panics. -/
def nested_conditions_converter (env : LeafCheckers) (payload_provider : PayloadProvider)
    (conditions : ConditionList) (field_indexes : IndexesMap)
    (nested_path : JsonPathPayload) : Option (List (PointOffsetType → Option BV)) :=
  match conditions with
  | .nil => some []
  | .cons condition rest =>
    match nested_condition_converter env payload_provider condition field_indexes nested_path,
        nested_conditions_converter env payload_provider rest field_indexes nested_path with
    | some f, some fs => some (f :: fs)
    | _, _ => none
termination_by (sizeOf conditions, 0)

/-- Body of the closure compiled for a `Condition::Nested`: evaluate the
must, must_not and should groups at the extended path, keep the present ones
in that order, and AND-reduce them (`unwrap_or_default` when no group is
present).  `none` models a panic inside the closure. -/
def eval_nested_condition (env : LeafCheckers) (payload_provider : PayloadProvider)
    (nested : NestedContainer) (field_indexes : IndexesMap)
    (nested_path : JsonPathPayload) (point_id : PointOffsetType) : Option BV :=
  match check_nested_must env payload_provider point_id nested field_indexes nested_path with
  | none => none
  | some must_matching =>
    match check_nested_must_not env payload_provider point_id nested field_indexes
        nested_path with
    | none => none
    | some must_not_matching =>
      match check_nested_should env payload_provider point_id nested field_indexes
          nested_path with
      | none => none
      | some should_matching =>
        some (matchAllReduce
          (must_matching.toList ++ must_not_matching.toList ++ should_matching.toList))
termination_by (sizeOf nested, 1)

/-- `check_nested_must`: absent (`some none`) when the sub-filter has no must
list; otherwise compile the must conditions at the extended path and
match-all-reduce their bit vectors.  Outer `none` models a panic. -/
def check_nested_must (env : LeafCheckers) (payload_provider : PayloadProvider)
    (point_id : PointOffsetType) (nested : NestedContainer) (field_indexes : IndexesMap)
    (nested_path : JsonPathPayload) : Option (Option BV) :=
  match nested with
  | .mk array_key must _ _ =>
    match must with
    | .none => some none
    | .some musts_conditions =>
      match nested_conditions_converter env payload_provider musts_conditions field_indexes
          (nested_path.extend array_key) with
      | none => none
      | some nested_checkers =>
        match apply_checkers nested_checkers point_id with
        | none => none
        | some bvs => some (some (matchAllReduce bvs))
termination_by (sizeOf nested, 0)

/-- `check_nested_must_not`: absent when the sub-filter has no must_not list;
otherwise compile the conditions at the extended path and match-none-reduce
their bit vectors. -/
def check_nested_must_not (env : LeafCheckers) (payload_provider : PayloadProvider)
    (point_id : PointOffsetType) (nested : NestedContainer) (field_indexes : IndexesMap)
    (nested_path : JsonPathPayload) : Option (Option BV) :=
  match nested with
  | .mk array_key _ must_not _ =>
    match must_not with
    | .none => some none
    | .some musts_not_conditions =>
      match nested_conditions_converter env payload_provider musts_not_conditions
          field_indexes (nested_path.extend array_key) with
      | none => none
      | some matching_indices =>
        match apply_checkers matching_indices point_id with
        | none => none
        | some bvs => some (some (matchNoneReduce bvs))
termination_by (sizeOf nested, 0)

/-- `check_nested_should`: absent when the sub-filter has no should list;
otherwise compile the conditions at the extended path and match-any-reduce
their bit vectors (so an empty should list also yields an absent group, since
match-any returns no vector). -/
def check_nested_should (env : LeafCheckers) (payload_provider : PayloadProvider)
    (point_id : PointOffsetType) (nested : NestedContainer) (field_indexes : IndexesMap)
    (nested_path : JsonPathPayload) : Option (Option BV) :=
  match nested with
  | .mk array_key _ _ should =>
    match should with
    | .none => some none
    | .some should_conditions =>
      match nested_conditions_converter env payload_provider should_conditions field_indexes
          (nested_path.extend array_key) with
      | none => none
      | some matching_indices =>
        match apply_checkers matching_indices point_id with
        | none => none
        | some bvs => some (matchAnyReduce bvs)
termination_by (sizeOf nested, 0)

end

mutual

/-- `true` iff the condition tree contains no `Filter` variant anywhere
(the upstream validation invariant of the nested converter). -/
def condition_no_raw (condition : Condition) : Bool :=
  match condition with
  | .Field _ => true
  | .IsEmpty _ => true
  | .IsNull _ => true
  | .HasId _ => true
  | .Nested nested => container_no_raw nested
  | .Filter => false

/-- `true` iff no clause of the nested sub-filter contains a `Filter`. -/
def container_no_raw (nested : NestedContainer) : Bool :=
  match nested with
  | .mk _ must must_not should =>
    opt_conditions_no_raw must && (opt_conditions_no_raw must_not &&
      opt_conditions_no_raw should)

/-- `true` iff an absent clause, or a clause list without `Filter`. -/
def opt_conditions_no_raw (clause : OptConditions) : Bool :=
  match clause with
  | .none => true
  | .some conditions => condition_list_no_raw conditions

/-- `true` iff no condition of the list contains a `Filter`. -/
def condition_list_no_raw (conditions : ConditionList) : Bool :=
  match conditions with
  | .nil => true
  | .cons condition rest => condition_no_raw condition && condition_list_no_raw rest

end

end Segment

namespace Collection

/-- Modelled from the spec: `PointIdType`, an external point identifier,
treated as opaque. -/
abbrev PointIdType := Nat

/-- Modelled from the spec: `VectorStruct`, the vector data of an update,
treated as opaque (its contents never influence `is_write_operation`). -/
abbrev VectorStruct := Nat

/-- Modelled from the spec: `PointIdsList`, a point selector by explicit ids. -/
abbrev PointIdsList := List PointIdType

/-- Modelled from the spec: a top-level `Filter` used by
`DeleteVectorsByFilter`, treated as opaque here. -/
abbrev FilterData := Nat

/-- The `UpdateVectors` operation payload: a point id and its new vectors. -/
structure UpdateVectors where
  id : PointIdType
  vector : VectorStruct

/-- The `VectorOperations` enum of `vector_ops.rs`. -/
inductive VectorOperations where
  | UpdateVectors : UpdateVectors → VectorOperations
  | DeleteVectors : PointIdsList → List String → VectorOperations
  | DeleteVectorsByFilter : FilterData → List String → VectorOperations

/-- `VectorOperations::is_write_operation`. -/
def is_write_operation (op : VectorOperations) : Bool :=
  match op with
  | .UpdateVectors _ => true
  | .DeleteVectors _ _ => false
  | .DeleteVectorsByFilter _ _ => false

end Collection

namespace Segment

theorem length_bvAnd (a b : BV) : (bvAnd a b).length = min a.length b.length := by
  simp [bvAnd]

theorem length_bvOr (a b : BV) : (bvOr a b).length = min a.length b.length := by
  simp [bvOr]

theorem length_bvNot (a : BV) : (bvNot a).length = a.length := by
  simp [bvNot]

theorem getD_bvAnd (a b : BV) (i : Nat) :
    (bvAnd a b).getD i false = ((a.getD i false) && (b.getD i false)) := by
  induction a generalizing b i with
  | nil => simp [bvAnd]
  | cons x xs ih =>
    cases b with
    | nil => simp [bvAnd]
    | cons y ys =>
      cases i with
      | zero => simp [bvAnd]
      | succ j => simpa [bvAnd] using ih ys j

theorem getD_bvOr (a b : BV) (h : a.length = b.length) (i : Nat) :
    (bvOr a b).getD i false = ((a.getD i false) || (b.getD i false)) := by
  induction a generalizing b i with
  | nil =>
    cases b with
    | nil => simp [bvOr]
    | cons y ys => simp at h
  | cons x xs ih =>
    cases b with
    | nil => simp at h
    | cons y ys =>
      cases i with
      | zero => simp [bvOr]
      | succ j => simpa [bvOr] using ih ys (by simpa using h) j

theorem getD_foldl_bvAnd (l : List BV) (v : BV) (i : Nat) :
    (l.foldl bvAnd v).getD i false =
      ((v.getD i false) && l.all fun x => x.getD i false) := by
  induction l generalizing v with
  | nil => simp
  | cons x xs ih =>
    simp only [List.foldl_cons, ih (bvAnd v x), getD_bvAnd, List.all_cons, Bool.and_assoc]

theorem length_foldl_bvAnd (l : List BV) (v : BV) (L : Nat) (hv : v.length = L)
    (hl : ∀ x ∈ l, x.length = L) : (l.foldl bvAnd v).length = L := by
  induction l generalizing v with
  | nil => simpa using hv
  | cons x xs ih =>
    simp only [List.foldl_cons]
    refine ih (bvAnd v x) ?_ ?_
    · rw [length_bvAnd, hv, hl x (List.mem_cons_self x xs), Nat.min_self]
    · intro y hy
      exact hl y (List.mem_cons_of_mem x hy)

theorem getD_foldl_bvOr (l : List BV) (v : BV) (L : Nat) (hv : v.length = L)
    (hl : ∀ x ∈ l, x.length = L) (i : Nat) :
    (l.foldl bvOr v).getD i false =
      ((v.getD i false) || l.any fun x => x.getD i false) := by
  induction l generalizing v with
  | nil => simp
  | cons x xs ih =>
    have hx : x.length = L := hl x (List.mem_cons_self x xs)
    have hvx : (bvOr v x).length = L := by
      rw [length_bvOr, hv, hx, Nat.min_self]
    have hrest : ∀ y ∈ xs, y.length = L := fun y hy => hl y (List.mem_cons_of_mem x hy)
    simp only [List.foldl_cons, ih (bvOr v x) hvx hrest,
      getD_bvOr v x (hv.trans hx.symm), List.any_cons, Bool.or_assoc]

theorem length_foldl_bvOr (l : List BV) (v : BV) (L : Nat) (hv : v.length = L)
    (hl : ∀ x ∈ l, x.length = L) : (l.foldl bvOr v).length = L := by
  induction l generalizing v with
  | nil => simpa using hv
  | cons x xs ih =>
    simp only [List.foldl_cons]
    refine ih (bvOr v x) ?_ ?_
    · rw [length_bvOr, hv, hl x (List.mem_cons_self x xs), Nat.min_self]
    · intro y hy
      exact hl y (List.mem_cons_of_mem x hy)

theorem getD_eq_getElem_of_lt (v : BV) (i : Nat) (h : i < v.length) :
    v.getD i false = v[i] := by
  simp [List.getD_eq_getElem?_getD, List.getElem?_eq_getElem h]

theorem true_mem_iff_getD (v : BV) :
    true ∈ v ↔ ∃ i, i < v.length ∧ v.getD i false = true := by
  constructor
  · intro h
    obtain ⟨i, hi, he⟩ := List.mem_iff_getElem.mp h
    exact ⟨i, hi, by rw [getD_eq_getElem_of_lt v i hi, he]⟩
  · rintro ⟨i, hi, he⟩
    rw [getD_eq_getElem_of_lt v i hi] at he
    exact he ▸ List.getElem_mem hi

theorem countOnes_pos_iff (v : BV) : 0 < countOnes v ↔ true ∈ v := by
  simp only [countOnes]
  exact List.count_pos_iff

theorem countOnes_eq_zero_iff (v : BV) : countOnes v = 0 ↔ true ∉ v := by
  simp [countOnes, List.count_eq_zero]

theorem bool_eq_of_iff {a b : Bool} (h : a = true ↔ b = true) : a = b := by
  cases a <;> cases b <;> simp_all

theorem all_map_general {α β : Type} (l : List α) (f : α → β) (p : β → Bool) :
    (l.map f).all p = l.all fun a => p (f a) := by
  induction l with
  | nil => rfl
  | cons x xs ih => simp [ih]

theorem any_map_general {α β : Type} (l : List α) (f : α → β) (p : β → Bool) :
    (l.map f).any p = l.any fun a => p (f a) := by
  induction l with
  | nil => rfl
  | cons x xs ih => simp [ih]

theorem find_all_cons (point_id : PointOffsetType) (c : NestedMatchingIndicesFn)
    (cs : List NestedMatchingIndicesFn) :
    find_indices_matching_all_conditions point_id (c :: cs) =
      (cs.map fun x => x point_id).foldl bvAnd (c point_id) := by
  simp [find_indices_matching_all_conditions, listReduce]

theorem find_any_cons (point_id : PointOffsetType) (c : NestedMatchingIndicesFn)
    (cs : List NestedMatchingIndicesFn) :
    find_indices_matching_any_conditions point_id (c :: cs) =
      some ((cs.map fun x => x point_id).foldl bvOr (c point_id)) := by
  simp [find_indices_matching_any_conditions, listReduce]

theorem find_all_getD (point_id : PointOffsetType) (c : NestedMatchingIndicesFn)
    (cs : List NestedMatchingIndicesFn) (i : Nat) :
    (find_indices_matching_all_conditions point_id (c :: cs)).getD i false =
      (c :: cs).all fun x => (x point_id).getD i false := by
  rw [find_all_cons, getD_foldl_bvAnd, List.all_cons, all_map_general]

theorem find_all_length (point_id : PointOffsetType) (c : NestedMatchingIndicesFn)
    (cs : List NestedMatchingIndicesFn) (L : Nat)
    (hlen : ∀ x ∈ c :: cs, (x point_id).length = L) :
    (find_indices_matching_all_conditions point_id (c :: cs)).length = L := by
  rw [find_all_cons]
  refine length_foldl_bvAnd _ _ L (hlen c (List.mem_cons_self c cs)) ?_
  intro y hy
  obtain ⟨x, hx, rfl⟩ := List.mem_map.mp hy
  exact hlen x (List.mem_cons_of_mem c hx)

theorem find_any_getD (point_id : PointOffsetType) (c : NestedMatchingIndicesFn)
    (cs : List NestedMatchingIndicesFn) (L : Nat)
    (hlen : ∀ x ∈ c :: cs, (x point_id).length = L) (i : Nat) :
    (((cs.map fun x => x point_id).foldl bvOr (c point_id))).getD i false =
      (c :: cs).any fun x => (x point_id).getD i false := by
  rw [getD_foldl_bvOr _ _ L (hlen c (List.mem_cons_self c cs))
    (by
      intro y hy
      obtain ⟨x, hx, rfl⟩ := List.mem_map.mp hy
      exact hlen x (List.mem_cons_of_mem c hx)),
    List.any_cons, any_map_general]

theorem find_any_length (point_id : PointOffsetType) (c : NestedMatchingIndicesFn)
    (cs : List NestedMatchingIndicesFn) (L : Nat)
    (hlen : ∀ x ∈ c :: cs, (x point_id).length = L) :
    (((cs.map fun x => x point_id).foldl bvOr (c point_id))).length = L := by
  refine length_foldl_bvOr _ _ L (hlen c (List.mem_cons_self c cs)) ?_
  intro y hy
  obtain ⟨x, hx, rfl⟩ := List.mem_map.mp hy
  exact hlen x (List.mem_cons_of_mem c hx)

/-- C6: match-all over an empty checker list returns the empty bit vector;
over a non-empty list of checkers whose bit vectors have equal length `L` it
returns the positionwise AND of all the checkers' bit vectors. -/
theorem find_all_empty_and_conjunction (point_id : PointOffsetType)
    (cs : List NestedMatchingIndicesFn) (L : Nat)
    (hlen : ∀ c ∈ cs, (c point_id).length = L) :
    find_indices_matching_all_conditions point_id [] = bvDefault
    ∧ (cs ≠ [] →
        (find_indices_matching_all_conditions point_id cs).length = L
        ∧ ∀ i, i < L →
          ((find_indices_matching_all_conditions point_id cs).getD i false = true ↔
            ∀ c ∈ cs, (c point_id).getD i false = true)) := by
  refine ⟨rfl, fun hne => ?_⟩
  cases cs with
  | nil => exact absurd rfl hne
  | cons c rest =>
    refine ⟨find_all_length point_id c rest L hlen, fun i hi => ?_⟩
    rw [find_all_getD]
    simp [List.all_eq_true]

/-- C6 witness: a single checker with a one-element vector. -/
theorem find_all_empty_and_conjunction_witness :
    find_indices_matching_all_conditions 0 [] = bvDefault
    ∧ (([fun _ => [true]] : List NestedMatchingIndicesFn) ≠ [] →
        (find_indices_matching_all_conditions 0
          ([fun _ => [true]] : List NestedMatchingIndicesFn)).length = 1
        ∧ ∀ i, i < 1 →
          ((find_indices_matching_all_conditions 0
              ([fun _ => [true]] : List NestedMatchingIndicesFn)).getD i false = true ↔
            ∀ c ∈ ([fun _ => [true]] : List NestedMatchingIndicesFn),
              (c 0).getD i false = true)) :=
  find_all_empty_and_conjunction 0 [fun _ => [true]] 1
    (by
      intro c hc
      rw [List.mem_singleton] at hc
      subst hc
      rfl)

/-- C5: match-any over an empty checker list returns absence, distinct from
any present vector; over a non-empty list of equal-length checkers it returns
the positionwise OR of all the checkers' bit vectors. -/
theorem find_any_empty_and_disjunction (point_id : PointOffsetType)
    (cs : List NestedMatchingIndicesFn) (L : Nat)
    (hlen : ∀ c ∈ cs, (c point_id).length = L) :
    find_indices_matching_any_conditions point_id [] = none
    ∧ (∀ w : BV, find_indices_matching_any_conditions point_id [] ≠ some w)
    ∧ (cs ≠ [] →
        ∃ v, find_indices_matching_any_conditions point_id cs = some v
          ∧ v.length = L
          ∧ ∀ i, i < L →
            (v.getD i false = true ↔ ∃ c ∈ cs, (c point_id).getD i false = true)) := by
  refine ⟨rfl, fun w h => Option.noConfusion h, fun hne => ?_⟩
  cases cs with
  | nil => exact absurd rfl hne
  | cons c rest =>
    refine ⟨_, find_any_cons point_id c rest,
      find_any_length point_id c rest L hlen, fun i hi => ?_⟩
    rw [find_any_getD point_id c rest L hlen i]
    simp [List.any_eq_true]

/-- C5 witness: a single checker with a one-element vector. -/
theorem find_any_empty_and_disjunction_witness :
    find_indices_matching_any_conditions 0 [] = none
    ∧ (∀ w : BV, find_indices_matching_any_conditions 0 [] ≠ some w)
    ∧ (([fun _ => [true]] : List NestedMatchingIndicesFn) ≠ [] →
        ∃ v, find_indices_matching_any_conditions 0
            ([fun _ => [true]] : List NestedMatchingIndicesFn) = some v
          ∧ v.length = 1
          ∧ ∀ i, i < 1 →
            (v.getD i false = true ↔
              ∃ c ∈ ([fun _ => [true]] : List NestedMatchingIndicesFn),
                (c 0).getD i false = true)) :=
  find_any_empty_and_disjunction 0 [fun _ => [true]] 1
    (by
      intro c hc
      rw [List.mem_singleton] at hc
      subst hc
      rfl)

/-- C4: for a non-empty checker list, match-any produces a vector (the debug
assertion holds) and match-none is exactly its bitwise complement. -/
theorem find_none_is_complement (point_id : PointOffsetType)
    (cs : List NestedMatchingIndicesFn) (L : Nat) (hne : cs ≠ [])
    (hlen : ∀ c ∈ cs, (c point_id).length = L) :
    (find_indices_matching_any_conditions point_id cs).isSome = true
    ∧ find_indices_matching_none_conditions point_id cs =
        bvNot ((find_indices_matching_any_conditions point_id cs).getD bvDefault) := by
  cases cs with
  | nil => exact absurd rfl hne
  | cons c rest =>
    constructor
    · rw [find_any_cons]
      rfl
    · simp [find_indices_matching_none_conditions, find_any_cons]

/-- C4 witness: a single checker with a one-element vector. -/
theorem find_none_is_complement_witness :
    (find_indices_matching_any_conditions 0
      ([fun _ => [true]] : List NestedMatchingIndicesFn)).isSome = true
    ∧ find_indices_matching_none_conditions 0
        ([fun _ => [true]] : List NestedMatchingIndicesFn) =
      bvNot ((find_indices_matching_any_conditions 0
        ([fun _ => [true]] : List NestedMatchingIndicesFn)).getD bvDefault) :=
  find_none_is_complement 0 [fun _ => [true]] 1 (by simp)
    (by
      intro c hc
      rw [List.mem_singleton] at hc
      subst hc
      rfl)

/-- C1: the non-negated merged checker is true iff the match-all reduction has
at least one set bit, i.e. (for a non-empty list of equal-length checkers)
iff some array-element position is matched by every checker. -/
theorem merge_nonnegated_verdict (cs : List NestedMatchingIndicesFn)
    (point_id : PointOffsetType) (L : Nat) (hne : cs ≠ [])
    (hlen : ∀ c ∈ cs, (c point_id).length = L) :
    (merge_nested_matching_indices cs false point_id = true ↔
      0 < countOnes (find_indices_matching_all_conditions point_id cs))
    ∧ (merge_nested_matching_indices cs false point_id = true ↔
      ∃ i, i < L ∧ ∀ c ∈ cs, (c point_id).getD i false = true) := by
  have h1 : merge_nested_matching_indices cs false point_id = true ↔
      0 < countOnes (find_indices_matching_all_conditions point_id cs) := by
    simp [merge_nested_matching_indices]
  refine ⟨h1, h1.trans ?_⟩
  rw [countOnes_pos_iff, true_mem_iff_getD]
  cases cs with
  | nil => exact absurd rfl hne
  | cons c rest =>
    have hL := find_all_length point_id c rest L hlen
    constructor
    · rintro ⟨i, hi, he⟩
      rw [hL] at hi
      rw [find_all_getD] at he
      refine ⟨i, hi, ?_⟩
      simpa [List.all_eq_true] using he
    · rintro ⟨i, hi, hall⟩
      refine ⟨i, by rw [hL]; exact hi, ?_⟩
      rw [find_all_getD]
      simpa [List.all_eq_true] using hall

/-- C1 witness: a single checker matching the only element position. -/
theorem merge_nonnegated_verdict_witness :
    (merge_nested_matching_indices ([fun _ => [true]] : List NestedMatchingIndicesFn)
        false 0 = true ↔
      0 < countOnes (find_indices_matching_all_conditions 0
        ([fun _ => [true]] : List NestedMatchingIndicesFn)))
    ∧ (merge_nested_matching_indices ([fun _ => [true]] : List NestedMatchingIndicesFn)
        false 0 = true ↔
      ∃ i, i < 1 ∧ ∀ c ∈ ([fun _ => [true]] : List NestedMatchingIndicesFn),
        (c 0).getD i false = true) :=
  merge_nonnegated_verdict [fun _ => [true]] 0 1 (by simp)
    (by
      intro c hc
      rw [List.mem_singleton] at hc
      subst hc
      rfl)

/-- C2: the negated merged checker is true iff the match-none reduction has no
set bit; when every checker vector is empty the negated verdict is true and
the non-negated one false; and the negated verdict is not the logical
negation of the non-negated verdict in general. -/
theorem merge_negated_verdict (cs : List NestedMatchingIndicesFn)
    (point_id : PointOffsetType) :
    (merge_nested_matching_indices cs true point_id = true ↔
      countOnes (find_indices_matching_none_conditions point_id cs) = 0)
    ∧ ((∀ c ∈ cs, c point_id = bvDefault) →
      merge_nested_matching_indices cs true point_id = true
      ∧ merge_nested_matching_indices cs false point_id = false)
    ∧ ¬ (∀ (ds : List NestedMatchingIndicesFn) (q : PointOffsetType),
      merge_nested_matching_indices ds true q =
        !(merge_nested_matching_indices ds false q)) := by
  refine ⟨?_, ?_, ?_⟩
  · simp [merge_nested_matching_indices]
  · intro hall
    have hlen : ∀ c ∈ cs, (c point_id).length = 0 := by
      intro c hc
      rw [hall c hc]
      rfl
    constructor
    · cases cs with
      | nil => rfl
      | cons c rest =>
        have hv := find_any_length point_id c rest 0 hlen
        have hempty : ((rest.map fun x => x point_id).foldl bvOr (c point_id)) = [] :=
          List.length_eq_zero.mp hv
        simp [merge_nested_matching_indices, find_indices_matching_none_conditions,
          find_any_cons, hempty, bvNot, countOnes]
    · cases cs with
      | nil => rfl
      | cons c rest =>
        have hv := find_all_length point_id c rest 0 hlen
        have hempty : find_indices_matching_all_conditions point_id (c :: rest) = [] :=
          List.length_eq_zero.mp hv
        simp [merge_nested_matching_indices, hempty, countOnes]
  · intro h
    have h2 := h [fun _ => [true]] 0
    have e1 : merge_nested_matching_indices
        ([fun _ => [true]] : List NestedMatchingIndicesFn) true 0 = true := rfl
    have e2 : merge_nested_matching_indices
        ([fun _ => [true]] : List NestedMatchingIndicesFn) false 0 = true := rfl
    rw [e1, e2] at h2
    simp at h2

/-- C2 witness: the empty-vector hypothesis discharged at a single checker
returning the empty bit vector. -/
theorem merge_negated_verdict_witness :
    merge_nested_matching_indices ([fun _ => bvDefault] : List NestedMatchingIndicesFn)
      true 0 = true
    ∧ merge_nested_matching_indices ([fun _ => bvDefault] : List NestedMatchingIndicesFn)
      false 0 = false :=
  (merge_negated_verdict [fun _ => bvDefault] 0).2.1
    (by
      intro c hc
      rw [List.mem_singleton] at hc
      subst hc
      rfl)

/-- C8: match-all and match-any are invariant under any permutation of an
equal-length checker list. -/
theorem reductions_perm_invariant (point_id : PointOffsetType)
    (cs cs2 : List NestedMatchingIndicesFn) (L : Nat)
    (hperm : List.Perm cs cs2)
    (hlen : ∀ c ∈ cs, (c point_id).length = L) :
    find_indices_matching_all_conditions point_id cs =
      find_indices_matching_all_conditions point_id cs2
    ∧ find_indices_matching_any_conditions point_id cs =
      find_indices_matching_any_conditions point_id cs2 := by
  have hlen2 : ∀ c ∈ cs2, (c point_id).length = L := fun c hc =>
    hlen c (hperm.mem_iff.mpr hc)
  cases cs with
  | nil =>
    have h0 : cs2 = [] := List.Perm.eq_nil hperm.symm
    subst h0
    exact ⟨rfl, rfl⟩
  | cons c rest =>
    cases cs2 with
    | nil =>
      have := hperm.length_eq
      simp at this
    | cons c2 rest2 =>
      constructor
      · apply List.ext_getElem
        · rw [find_all_length _ c rest L hlen, find_all_length _ c2 rest2 L hlen2]
        · intro i h1 h2
          rw [← getD_eq_getElem_of_lt _ i h1, ← getD_eq_getElem_of_lt _ i h2,
            find_all_getD, find_all_getD]
          apply bool_eq_of_iff
          simp only [List.all_eq_true]
          constructor
          · intro ha x hx
            exact ha x (hperm.mem_iff.mpr hx)
          · intro ha x hx
            exact ha x (hperm.mem_iff.mp hx)
      · rw [find_any_cons, find_any_cons]
        congr 1
        apply List.ext_getElem
        · rw [find_any_length _ c rest L hlen, find_any_length _ c2 rest2 L hlen2]
        · intro i h1 h2
          rw [← getD_eq_getElem_of_lt _ i h1, ← getD_eq_getElem_of_lt _ i h2,
            find_any_getD _ c rest L hlen i, find_any_getD _ c2 rest2 L hlen2 i]
          apply bool_eq_of_iff
          simp only [List.any_eq_true]
          constructor
          · rintro ⟨x, hx, hpx⟩
            exact ⟨x, hperm.mem_iff.mp hx, hpx⟩
          · rintro ⟨x, hx, hpx⟩
            exact ⟨x, hperm.mem_iff.mpr hx, hpx⟩

theorem apply_checkers_isSome (checkers : List (PointOffsetType → Option BV))
    (point_id : PointOffsetType)
    (h : ∀ f ∈ checkers, (f point_id).isSome = true) :
    (apply_checkers checkers point_id).isSome = true := by
  induction checkers with
  | nil => rfl
  | cons f fs ih =>
    obtain ⟨v, hv⟩ := Option.isSome_iff_exists.mp (h f (List.mem_cons_self f fs))
    obtain ⟨vs, hvs⟩ :=
      Option.isSome_iff_exists.mp (ih fun g hg => h g (List.mem_cons_of_mem f hg))
    simp [apply_checkers, hv, hvs]

mutual

theorem converter_totality (env : LeafCheckers) (pp : PayloadProvider)
    (fi : IndexesMap) (path : JsonPathPayload) (condition : Condition)
    (h : condition_no_raw condition = true) :
    ∃ f, nested_condition_converter env pp condition fi path = some f
      ∧ ∀ point_id, (f point_id).isSome = true := by
  cases condition with
  | Field fc =>
    refine ⟨fun point_id => some (with_payload pp point_id fun payload =>
      env.nested_check_field_condition fc payload path fi), ?_, fun point_id => rfl⟩
    simp [nested_condition_converter]
  | IsEmpty c =>
    refine ⟨fun point_id => some (with_payload pp point_id fun payload =>
      env.check_nested_is_empty_condition path c payload), ?_, fun point_id => rfl⟩
    simp [nested_condition_converter]
  | IsNull c =>
    refine ⟨fun point_id => some (with_payload pp point_id fun payload =>
      env.check_nested_is_null_condition path c payload), ?_, fun point_id => rfl⟩
    simp [nested_condition_converter]
  | HasId ids =>
    refine ⟨fun _ => some bvDefault, ?_, fun _ => rfl⟩
    simp [nested_condition_converter]
  | Nested nested =>
    have hn : container_no_raw nested = true := by
      simpa [condition_no_raw] using h
    refine ⟨fun point_id =>
      eval_nested_condition env pp nested fi path point_id, ?_, ?_⟩
    · simp [nested_condition_converter]
    · intro point_id
      exact eval_totality env pp fi path nested point_id hn
  | Filter => simp [condition_no_raw] at h
termination_by (sizeOf condition, 0)

theorem converters_totality (env : LeafCheckers) (pp : PayloadProvider)
    (fi : IndexesMap) (path : JsonPathPayload) (conditions : ConditionList)
    (h : condition_list_no_raw conditions = true) :
    ∃ fs, nested_conditions_converter env pp conditions fi path = some fs
      ∧ ∀ f ∈ fs, ∀ point_id, (f point_id).isSome = true := by
  cases conditions with
  | nil => exact ⟨[], by simp [nested_conditions_converter], by simp⟩
  | cons condition rest =>
    rw [condition_list_no_raw, Bool.and_eq_true] at h
    obtain ⟨f, hf, hfall⟩ := converter_totality env pp fi path condition h.1
    obtain ⟨fs, hfs, hfsall⟩ := converters_totality env pp fi path rest h.2
    refine ⟨f :: fs, ?_, ?_⟩
    · simp [nested_conditions_converter, hf, hfs]
    · intro g hg point_id
      rw [List.mem_cons] at hg
      cases hg with
      | inl he => subst he; exact hfall point_id
      | inr he => exact hfsall g he point_id
termination_by (sizeOf conditions, 0)

theorem eval_totality (env : LeafCheckers) (pp : PayloadProvider)
    (fi : IndexesMap) (path : JsonPathPayload) (nested : NestedContainer)
    (point_id : PointOffsetType) (h : container_no_raw nested = true) :
    (eval_nested_condition env pp nested fi path point_id).isSome = true := by
  obtain ⟨m, hm⟩ :=
    Option.isSome_iff_exists.mp (must_totality env pp fi path nested point_id h)
  obtain ⟨mn, hmn⟩ :=
    Option.isSome_iff_exists.mp (must_not_totality env pp fi path nested point_id h)
  obtain ⟨s, hs⟩ :=
    Option.isSome_iff_exists.mp (should_totality env pp fi path nested point_id h)
  simp [eval_nested_condition, hm, hmn, hs]
termination_by (sizeOf nested, 1)

theorem must_totality (env : LeafCheckers) (pp : PayloadProvider)
    (fi : IndexesMap) (path : JsonPathPayload) (nested : NestedContainer)
    (point_id : PointOffsetType) (h : container_no_raw nested = true) :
    (check_nested_must env pp point_id nested fi path).isSome = true := by
  cases nested with
  | mk key must mnot should =>
    cases must with
    | none => simp [check_nested_must]
    | some conds =>
      rw [container_no_raw, Bool.and_eq_true, Bool.and_eq_true,
        opt_conditions_no_raw] at h
      obtain ⟨fs, hfs, hall⟩ :=
        converters_totality env pp fi (path.extend key) conds h.1
      obtain ⟨vs, hvs⟩ := Option.isSome_iff_exists.mp
        (apply_checkers_isSome fs point_id fun g hg => hall g hg point_id)
      simp [check_nested_must, hfs, hvs]
termination_by (sizeOf nested, 0)

theorem must_not_totality (env : LeafCheckers) (pp : PayloadProvider)
    (fi : IndexesMap) (path : JsonPathPayload) (nested : NestedContainer)
    (point_id : PointOffsetType) (h : container_no_raw nested = true) :
    (check_nested_must_not env pp point_id nested fi path).isSome = true := by
  cases nested with
  | mk key must mnot should =>
    cases mnot with
    | none => simp [check_nested_must_not]
    | some conds =>
      rw [container_no_raw, Bool.and_eq_true, Bool.and_eq_true,
        opt_conditions_no_raw] at h
      obtain ⟨fs, hfs, hall⟩ :=
        converters_totality env pp fi (path.extend key) conds h.2.1
      obtain ⟨vs, hvs⟩ := Option.isSome_iff_exists.mp
        (apply_checkers_isSome fs point_id fun g hg => hall g hg point_id)
      simp [check_nested_must_not, hfs, hvs]
termination_by (sizeOf nested, 0)

theorem should_totality (env : LeafCheckers) (pp : PayloadProvider)
    (fi : IndexesMap) (path : JsonPathPayload) (nested : NestedContainer)
    (point_id : PointOffsetType) (h : container_no_raw nested = true) :
    (check_nested_should env pp point_id nested fi path).isSome = true := by
  cases nested with
  | mk key must mnot should =>
    cases should with
    | none => simp [check_nested_should]
    | some conds =>
      rw [container_no_raw, Bool.and_eq_true, Bool.and_eq_true,
        opt_conditions_no_raw] at h
      obtain ⟨fs, hfs, hall⟩ :=
        converters_totality env pp fi (path.extend key) conds h.2.2
      obtain ⟨vs, hvs⟩ := Option.isSome_iff_exists.mp
        (apply_checkers_isSome fs point_id fun g hg => hall g hg point_id)
      simp [check_nested_should, hfs, hvs]
termination_by (sizeOf nested, 0)

end

/-- C7: a `HasId` condition compiles to a constant function returning the
empty bit vector, independent of the point id and of the id set. -/
theorem has_id_compiles_to_empty (env : LeafCheckers) (pp : PayloadProvider)
    (fi : IndexesMap) (path : JsonPathPayload) (ids : IdSet) :
    ∃ f, nested_condition_converter env pp (Condition.HasId ids) fi path = some f
      ∧ ∀ point_id, f point_id = some bvDefault := by
  refine ⟨fun _ => some bvDefault, ?_, fun _ => rfl⟩
  simp [nested_condition_converter]

/-- C3: for a nested sub-filter with must=[A] and must_not=[B] the compiled
per-element vector is (A's vector) AND (NOT (B's vector)); in general the
per-level result AND-reduces exactly the present groups, and with zero groups
present it is the empty bit vector. -/
theorem nested_groups_and_reduction (env : LeafCheckers) (pp : PayloadProvider)
    (fi : IndexesMap) (nested_path : JsonPathPayload) (key : String)
    (A B : Condition) (point_id : PointOffsetType)
    (fA fB : PointOffsetType → Option BV) (va vb : BV)
    (hA : nested_condition_converter env pp A fi (nested_path.extend key) = some fA)
    (hA2 : fA point_id = some va)
    (hB : nested_condition_converter env pp B fi (nested_path.extend key) = some fB)
    (hB2 : fB point_id = some vb) :
    (∃ g, nested_condition_converter env pp
        (Condition.Nested (NestedContainer.mk key
          (OptConditions.some (ConditionList.cons A ConditionList.nil))
          (OptConditions.some (ConditionList.cons B ConditionList.nil))
          OptConditions.none)) fi nested_path = some g
      ∧ g point_id = some (bvAnd va (bvNot vb)))
    ∧ (∀ key2, ∃ g0, nested_condition_converter env pp
        (Condition.Nested (NestedContainer.mk key2 OptConditions.none
          OptConditions.none OptConditions.none)) fi nested_path = some g0
      ∧ ∀ q, g0 q = some bvDefault)
    ∧ (∀ (nested : NestedContainer) (m mn s : Option BV),
        check_nested_must env pp point_id nested fi nested_path = some m →
        check_nested_must_not env pp point_id nested fi nested_path = some mn →
        check_nested_should env pp point_id nested fi nested_path = some s →
        eval_nested_condition env pp nested fi nested_path point_id =
          some (matchAllReduce (m.toList ++ mn.toList ++ s.toList))) := by
  refine ⟨?_, ?_, ?_⟩
  · refine ⟨fun q => eval_nested_condition env pp
      (NestedContainer.mk key
        (OptConditions.some (ConditionList.cons A ConditionList.nil))
        (OptConditions.some (ConditionList.cons B ConditionList.nil))
        OptConditions.none) fi nested_path q, ?_, ?_⟩
    · simp [nested_condition_converter]
    · have hm : check_nested_must env pp point_id
          (NestedContainer.mk key
            (OptConditions.some (ConditionList.cons A ConditionList.nil))
            (OptConditions.some (ConditionList.cons B ConditionList.nil))
            OptConditions.none) fi nested_path = some (some va) := by
        simp [check_nested_must, nested_conditions_converter, hA, apply_checkers,
          hA2, matchAllReduce, listReduce]
      have hmn : check_nested_must_not env pp point_id
          (NestedContainer.mk key
            (OptConditions.some (ConditionList.cons A ConditionList.nil))
            (OptConditions.some (ConditionList.cons B ConditionList.nil))
            OptConditions.none) fi nested_path = some (some (bvNot vb)) := by
        simp [check_nested_must_not, nested_conditions_converter, hB, apply_checkers,
          hB2, matchNoneReduce, matchAnyReduce, listReduce]
      have hs : check_nested_should env pp point_id
          (NestedContainer.mk key
            (OptConditions.some (ConditionList.cons A ConditionList.nil))
            (OptConditions.some (ConditionList.cons B ConditionList.nil))
            OptConditions.none) fi nested_path = some none := by
        simp [check_nested_should]
      simp [eval_nested_condition, hm, hmn, hs, matchAllReduce, listReduce]
  · intro key2
    refine ⟨fun q => eval_nested_condition env pp
      (NestedContainer.mk key2 OptConditions.none OptConditions.none
        OptConditions.none) fi nested_path q, ?_, ?_⟩
    · simp [nested_condition_converter]
    · intro q
      simp [eval_nested_condition, check_nested_must, check_nested_must_not,
        check_nested_should, matchAllReduce, listReduce]
  · intro nested m mn s hm hmn hs
    simp [eval_nested_condition, hm, hmn, hs]

/-- C3 witness: concrete leaf evaluators where condition 0 matches both
elements and condition 1 matches only the first. -/
theorem nested_groups_and_reduction_witness :
    ∃ g, nested_condition_converter
        (LeafCheckers.mk (fun fc _ _ _ => if fc = 0 then [true, true] else [true, false])
          (fun _ _ _ => []) (fun _ _ _ => []))
        (fun _ => 0)
        (Condition.Nested (NestedContainer.mk "k"
          (OptConditions.some (ConditionList.cons (Condition.Field 0) ConditionList.nil))
          (OptConditions.some (ConditionList.cons (Condition.Field 1) ConditionList.nil))
          OptConditions.none)) 0 ⟨[]⟩ = some g
      ∧ g 0 = some (bvAnd [true, true] (bvNot [true, false])) :=
  (nested_groups_and_reduction
    (LeafCheckers.mk (fun fc _ _ _ => if fc = 0 then [true, true] else [true, false])
      (fun _ _ _ => []) (fun _ _ _ => []))
    (fun _ => 0) 0 ⟨[]⟩ "k" (Condition.Field 0) (Condition.Field 1) 0
    (fun _ => some [true, true]) (fun _ => some [true, false]) [true, true] [true, false]
    (by simp [nested_condition_converter, with_payload])
    rfl
    (by simp [nested_condition_converter, with_payload])
    rfl).1

/-- C9: if the condition tree contains no `Filter` variant, compilation
succeeds and the compiled checker never panics at any point id — the
`unreachable!()` arm is never taken. -/
theorem converter_total_without_raw (env : LeafCheckers) (pp : PayloadProvider)
    (fi : IndexesMap) (path : JsonPathPayload) (condition : Condition)
    (h : condition_no_raw condition = true) :
    ∃ f, nested_condition_converter env pp condition fi path = some f
      ∧ ∀ point_id, (f point_id).isSome = true :=
  converter_totality env pp fi path condition h

/-- C9 witness: a nested condition with one field condition in its must
clause compiles and evaluates without reaching the unreachable arm. -/
theorem converter_total_without_raw_witness :
    ∃ f, nested_condition_converter
        (LeafCheckers.mk (fun _ _ _ _ => [true]) (fun _ _ _ => []) (fun _ _ _ => []))
        (fun _ => 0)
        (Condition.Nested (NestedContainer.mk "k"
          (OptConditions.some (ConditionList.cons (Condition.Field 0) ConditionList.nil))
          OptConditions.none OptConditions.none)) 0 ⟨[]⟩ = some f
      ∧ ∀ point_id, (f point_id).isSome = true :=
  converter_total_without_raw
    (LeafCheckers.mk (fun _ _ _ _ => [true]) (fun _ _ _ => []) (fun _ _ _ => []))
    (fun _ => 0) 0 ⟨[]⟩
    (Condition.Nested (NestedContainer.mk "k"
      (OptConditions.some (ConditionList.cons (Condition.Field 0) ConditionList.nil))
      OptConditions.none OptConditions.none))
    (by simp [condition_no_raw, container_no_raw, opt_conditions_no_raw,
      condition_list_no_raw])

/-- C8 witness: swapping two one-element checkers. -/
theorem reductions_perm_invariant_witness :
    find_indices_matching_all_conditions 0
        ([fun _ => [true], fun _ => [false]] : List NestedMatchingIndicesFn) =
      find_indices_matching_all_conditions 0
        ([fun _ => [false], fun _ => [true]] : List NestedMatchingIndicesFn)
    ∧ find_indices_matching_any_conditions 0
        ([fun _ => [true], fun _ => [false]] : List NestedMatchingIndicesFn) =
      find_indices_matching_any_conditions 0
        ([fun _ => [false], fun _ => [true]] : List NestedMatchingIndicesFn) :=
  reductions_perm_invariant 0 [fun _ => [true], fun _ => [false]]
    [fun _ => [false], fun _ => [true]] 1
    (List.Perm.swap _ _ _)
    (by
      intro c hc
      rw [List.mem_cons, List.mem_singleton] at hc
      cases hc with
      | inl h => subst h; rfl
      | inr h => subst h; rfl)

end Segment

namespace Collection

/-- C10: `is_write_operation` is true exactly on the `UpdateVectors` variant;
both delete variants report false. -/
theorem is_write_operation_only_update (op : VectorOperations) :
    (is_write_operation op = true ↔ ∃ u, op = VectorOperations.UpdateVectors u)
    ∧ (∀ (ids : PointIdsList) (names : List String),
        is_write_operation (VectorOperations.DeleteVectors ids names) = false)
    ∧ (∀ (flt : FilterData) (names : List String),
        is_write_operation (VectorOperations.DeleteVectorsByFilter flt names) = false) := by
  refine ⟨?_, fun ids names => rfl, fun flt names => rfl⟩
  cases op with
  | UpdateVectors u => simp [is_write_operation]
  | DeleteVectors ids names => simp [is_write_operation]
  | DeleteVectorsByFilter flt names => simp [is_write_operation]

end Collection
